import Mathlib

/-!
Shallow embedding of the metadata-extraction core of
`src/app/api/extract/route.ts` (the SDK-based implementation): the generic
bounded poller `pollForResult`, the manifest polling loop of `getMetadata`,
the per-view enrichment (object tree and properties), and the summary
helpers `analyzeObjectTree`, `summarizeProperties`, `addResourcesToMap`.

Remote calls are modelled by an environment of response functions indexed by
attempt number; thrown JS errors become `Except` errors carrying an optional
HTTP status code and an optional message.  JS `undefined` becomes `Option`;
JS truthiness of strings ("" is falsy) is made explicit.  Fields whose only
uses in the source conflate `undefined` with `[]` (e.g. `xs || []`,
`!xs || xs.length === 0`, `xs?.map(..) || []`) are modelled as plain lists.
-/

/-- JS truthiness of an optional string: `undefined` and `""` are falsy. -/
def truthyS : Option String → Bool
  | none => false
  | some s => s ≠ ""

/-- JS `a || b` for an optional string `a` and a string default `b`. -/
def jsOrStr (a : Option String) (b : String) : String :=
  match a with
  | none => b
  | some s => if s = "" then b else s

/-- JS `a || b` on two strings (`""` is falsy). -/
def jsOrS (a b : String) : String :=
  if a = "" then b else a

/-- A JS value only inspected through `stringToBoolean` (`hasThumbnail`). -/
inductive JsAny where
  | jsBool (b : Bool)
  | jsStr (s : String)
  | jsUndef
deriving Repr, DecidableEq

/-- `const stringToBoolean = (value) => value === true || value === "true"`. -/
def stringToBoolean : JsAny → Bool
  | .jsBool b => b
  | .jsStr s => s = "true"
  | .jsUndef => false

/-- A thrown transport error: optional HTTP status code (as read off
`err?.response?.status ?? err?.statusCode`) and optional `err.message`. -/
structure HttpErr where
  statusCode : Option Nat
  message : Option String
deriving Repr, DecidableEq

/-- Inner loop of `pollForResult`, structurally recursive on the remaining
attempt count; `idx` is the index of the next fetch, `last` the last fetched
result (`null` initially).  A thrown fetch error propagates immediately. -/
def pollLoop {ε α : Type} (fetcher : Nat → Except ε α) (isReady : Option α → Bool) :
    Nat → Nat → Option α → Except ε (Option α × Bool)
  | 0, _, last => .ok (last, false)
  | fuel + 1, idx, _last =>
    match fetcher idx with
    | .error e => .error e
    | .ok r =>
      if isReady (some r) then .ok (some r, true)
      else pollLoop fetcher isReady fuel (idx + 1) (some r)

/-- `pollForResult(fetcher, isReady, { attempts })`: runs the fetcher up to
`attempts` times, stopping on the first ready result. -/
def pollForResult {ε α : Type} (fetcher : Nat → Except ε α) (isReady : Option α → Bool)
    (attempts : Nat) : Except ε (Option α × Bool) :=
  pollLoop fetcher isReady attempts 0 none

/-- A node of the object tree: `{ objects?: node[] }`.  The only uses of the
`objects` field (`item.objects && item.objects.length > 0`, `!nodes ||
nodes.length === 0`) make an absent list indistinguishable from `[]`. -/
inductive TreeNode where
  | mk (objects : List TreeNode)

/-- The child list of a tree node. -/
def TreeNode.objects : TreeNode → List TreeNode
  | .mk l => l

/-- Result of `analyzeObjectTree`. -/
structure TreeStats where
  nodeCount : Nat
  maxDepth : Nat
deriving Repr, DecidableEq

/-- The `traverse` closure of `analyzeObjectTree`: walks the items at the
given depth threading the `(nodeCount, maxDepth)` accumulator; for each item
it increments the count, raises `maxDepth` to `depth` if needed, and descends
into a non-empty child list at `depth + 1`. -/
def traverseList : List TreeNode → Nat → Nat × Nat → Nat × Nat
  | [], _, acc => acc
  | TreeNode.mk children :: rest, depth, (cnt, md) =>
    let md1 := if depth > md then depth else md
    let acc1 :=
      if children.length > 0 then traverseList children (depth + 1) (cnt + 1, md1)
      else (cnt + 1, md1)
    traverseList rest depth acc1
termination_by l => sizeOf l
decreasing_by all_goals (simp; try omega)

/-- `analyzeObjectTree(nodes)`: `(0, 0)` for an absent or empty list, else
the traversal starting at depth 1. -/
def analyzeObjectTree (nodes : List TreeNode) : TreeStats :=
  if nodes.length = 0 then ⟨0, 0⟩
  else
    let r := traverseList nodes 1 (0, 0)
    ⟨r.1, r.2⟩

/-- Modelled from the spec: total number of nodes across the whole tree
(depth-first), for comparison with the computed `nodeCount`. -/
def totalNodes : List TreeNode → Nat
  | [] => 0
  | TreeNode.mk c :: rest => 1 + totalNodes c + totalNodes rest
termination_by l => sizeOf l
decreasing_by all_goals (simp; try omega)

/-- Modelled from the spec: length of the longest root-to-leaf chain, the
root counted as depth 1, for comparison with the computed `maxDepth`. -/
def longestChain : List TreeNode → Nat
  | [] => 0
  | TreeNode.mk c :: rest => max (1 + longestChain c) (longestChain rest)
termination_by l => sizeOf l
decreasing_by all_goals (simp; try omega)

/-- One entry of the property collection: `entry?.properties || {}` is a bag
of categories, each mapping to either a property object (modelled as the
list of its keys) or a non-object / null value (modelled as `none`, which
the summarizer skips). -/
structure PropEntry where
  properties : List (String × Option (List String))
deriving Repr, DecidableEq

/-- Result of `summarizeProperties`. -/
structure PropSummary where
  objectCount : Nat
  categoryCount : Nat
  propertyCount : Nat
deriving Repr, DecidableEq

/-- JS `Set.add`: appends the key if it is not already present. -/
def setAdd (s : List String) (k : String) : List String :=
  if k ∈ s then s else s ++ [k]

/-- Inner step of `summarizeProperties` for one category of one entry:
record the category in the set and, when the category value is a (truthy)
object, add its number of keys to the running property count. -/
def summarizeStep (acc : List String × Nat) (kv : String × Option (List String)) :
    List String × Nat :=
  (setAdd acc.1 kv.1,
   match kv.2 with
   | some keys => acc.2 + keys.length
   | none => acc.2)

/-- Per-entry step of `summarizeProperties`: fold over the entry's
categories in order. -/
def summarizeEntry (acc : List String × Nat) (e : PropEntry) : List String × Nat :=
  e.properties.foldl summarizeStep acc

/-- `summarizeProperties(collection)`: zero summary for an absent or empty
collection; otherwise object count, distinct-category count (via the set)
and total property-key count. -/
def summarizeProperties (collection : List PropEntry) : PropSummary :=
  if collection.length = 0 then ⟨0, 0, 0⟩
  else
    let r := collection.foldl summarizeEntry ([], 0)
    ⟨collection.length, r.1.length, r.2⟩

/-- Modelled from the spec: every category key of every object, in order,
with multiplicity. -/
def allCategoryKeys (collection : List PropEntry) : List String :=
  (collection.map (fun e => e.properties.map Prod.fst)).flatten

/-- Modelled from the spec: the sum, across all objects and categories, of
the number of property keys within each category. -/
def totalPropertyKeys (collection : List PropEntry) : Nat :=
  (collection.map (fun e =>
    (e.properties.map (fun kv =>
      match kv.2 with
      | some keys => keys.length
      | none => 0)).sum)).sum

/-- The scalar fields of a manifest resource (`ManifestResources`). -/
structure ResourceFields where
  guid : Option String
  name : Option String
  rtype : Option String
  urn : Option String
  role : Option String
  viewableID : Option String
  hasThumbnail : JsAny
  progress : Option String
deriving Repr, DecidableEq

/-- A manifest resource: scalar fields plus a child-resource tree.  The
`children` field is only read through `resource.children && length > 0`,
`derivative.children?.map(..) || []` and `if (!resources) return`, so an
absent list is modelled as `[]`. -/
inductive ManifestResource where
  | mk (fields : ResourceFields) (children : List ManifestResource)

/-- Scalar fields of a resource. -/
def ManifestResource.fields : ManifestResource → ResourceFields
  | .mk f _ => f

/-- Child resources of a resource. -/
def ManifestResource.children : ManifestResource → List ManifestResource
  | .mk _ c => c

/-- The guid lookup built by `addResourcesToMap`; represented as an
association list where later `Map.set` calls are prepended, so the first
match is the most recent binding. -/
def RMap : Type := List (String × ManifestResource)

/-- `Map.get`: the most recently set binding for the key, if any. -/
def rmapGet (m : RMap) (k : String) : Option ManifestResource :=
  (List.find? (fun p => p.1 = k) m).map Prod.snd

/-- `addResourcesToMap(resources, map)`: for each resource in order, set its
guid binding when the guid is truthy, then recurse into a non-empty child
list, then continue with the remaining resources. -/
def addResourcesToMap : List ManifestResource → RMap → RMap
  | [], m => m
  | ManifestResource.mk f c :: rest, m =>
    let m1 := if truthyS f.guid then (f.guid.getD "", ManifestResource.mk f c) :: m else m
    let m2 :=
      if c.length > 0 then addResourcesToMap c m1
      else m1
    addResourcesToMap rest m2
termination_by l _ => sizeOf l
decreasing_by all_goals (simp; try omega)

/-- Modelled from the spec: every resource of a resource tree, depth-first,
including nested children — what the claim says each derivative's
`resources` annotation contains. -/
def flattenResources : List ManifestResource → List ManifestResource
  | [] => []
  | ManifestResource.mk f c :: rest =>
    ManifestResource.mk f c :: (flattenResources c ++ flattenResources rest)
termination_by l => sizeOf l
decreasing_by all_goals (simp; try omega)

/-- A manifest message `{ message?, code? }`; the source reads it as
`msg.message || msg.code` inside a `join`, which coerces a missing value to
`""`. -/
structure ManifestMessage where
  message : Option String
  code : Option String
deriving Repr, DecidableEq

/-- The text `msg.message || msg.code` contributes to the joined diagnostic
(`undefined` joined as `""`). -/
def msgText (m : ManifestMessage) : String :=
  if truthyS m.message then m.message.getD "" else m.code.getD ""

/-- A manifest derivative.  `children` collapses an absent list to `[]` (its
uses are `children?.map(..) || []` and `addResourcesToMap`'s `!resources`
guard); `messages` keeps the `Option` because the failed branch tests the
field's presence (`derivatives[0].messages`). -/
structure ManifestDerivative where
  name : Option String
  hasThumbnail : JsAny
  outputType : Option String
  role : Option String
  status : Option String
  messages : Option (List ManifestMessage)
  children : List ManifestResource

/-- A translation manifest.  `messages` and `derivatives` are read through
`manifest.messages || []` and `manifest.derivatives || []`, so absent lists
are modelled as `[]`. -/
structure Manifest where
  urn : Option String
  status : String
  progress : Option String
  region : Option String
  hasThumbnail : JsAny
  messages : List ManifestMessage
  derivatives : List ManifestDerivative

/-- One entry of `modelViews.data.metadata`. -/
structure ViewInfo where
  guid : String
  name : Option String
  role : Option String
deriving Repr, DecidableEq

/-- An object-tree response `{ isProcessing?, data? }` where `data` carries
`objects` (collapsed to a list). -/
structure TreeData where
  objects : List TreeNode

/-- A `getObjectTree` response body. -/
structure TreeResult where
  isProcessing : Option Bool
  data : Option TreeData

/-- A properties response body `{ collection? }`. -/
structure PropsData where
  collection : List PropEntry

/-- A `getAllProperties` response body. -/
structure PropsResult where
  isProcessing : Option Bool
  data : Option PropsData

/-- Readiness predicate of the object-tree poll:
`Boolean(result && result.isProcessing !== true && result?.data)`. -/
def treeIsReady (r : Option TreeResult) : Bool :=
  match r with
  | none => false
  | some t => (t.isProcessing ≠ some true) && t.data.isSome

/-- Readiness predicate of the properties poll, mirroring the tree one. -/
def propsIsReady (r : Option PropsResult) : Bool :=
  match r with
  | none => false
  | some t => (t.isProcessing ≠ some true) && t.data.isSome

/-- The summary of one resource placed in a derivative's `resources` list. -/
structure ResourceOut where
  guid : Option String
  name : Option String
  rtype : Option String
  urn : Option String
  role : Option String
  viewableID : Option String
  hasThumbnail : Bool
  progress : Option String
deriving Repr, DecidableEq

/-- The per-resource mapping inside `derivativeResources`. -/
def resourceOut (r : ManifestResource) : ResourceOut :=
  { guid := r.fields.guid
    name := r.fields.name
    rtype := r.fields.rtype
    urn := r.fields.urn
    role := r.fields.role
    viewableID := r.fields.viewableID
    hasThumbnail := stringToBoolean r.fields.hasThumbnail
    progress := r.fields.progress }

/-- A derivative entry of the output document. -/
structure DerivativeOut where
  name : Option String
  hasThumbnail : Bool
  outputType : Option String
  role : Option String
  status : Option String
  resources : List ResourceOut
deriving Repr, DecidableEq

/-- The derivative entry pushed onto `metadata.derivatives`: scalar fields
plus `derivative.children?.map(resourceOut) || []`. -/
def derivativeOut (d : ManifestDerivative) : DerivativeOut :=
  { name := d.name
    hasThumbnail := stringToBoolean d.hasThumbnail
    outputType := d.outputType
    role := d.role
    status := d.status
    resources := d.children.map resourceOut }

/-- An enriched model view of the output document.  The two status fields
start as `"pending"` in the source and are always overwritten before the
view is returned; the embedding records the final values. -/
structure ViewOut where
  guid : String
  name : Option String
  role : Option String
  urn : Option String
  viewableID : Option String
  objectTree : Option TreeData
  objectTreeStats : Option TreeStats
  objectTreeStatus : String
  objectTreeError : Option String
  properties : Option PropsData
  propertiesStats : Option PropSummary
  propertiesStatus : String
  propertiesError : Option String

/-- The output metadata document.  `modelViews` is `none` when the source
never sets the field (view listing failed or carried no metadata) and
`message` is only set by the empty-success document. -/
structure Metadata where
  fileName : String
  sourceUrn : Option String
  status : String
  progress : Option String
  region : Option String
  hasThumbnail : Bool
  derivatives : List DerivativeOut
  modelViews : Option (List ViewOut)
  message : Option String

/-- The view list of a document (`modelViews` defaulting to empty). -/
def Metadata.viewList (d : Metadata) : List ViewOut :=
  d.modelViews.getD []

/-- Outcome of one enrichment (object tree or properties) of one view. -/
structure EnrichPart (δ σ : Type) where
  data : Option δ
  stats : Option σ
  status : String
  errMsg : Option String

/-- The object-tree enrichment of one view: a 10-attempt poll; on a thrown
error the status is `"error"` with the message captured, otherwise the data
and stats are recorded when present and the status is `"complete"` when
ready, `"processing"` when the last result still reports processing, and
`"unavailable"` otherwise. -/
def treePart (t : Nat → Except HttpErr TreeResult) : EnrichPart TreeData TreeStats :=
  match pollForResult t treeIsReady 10 with
  | .error e =>
    { data := none, stats := none, status := "error"
      errMsg := some (jsOrStr e.message "Failed to fetch object tree") }
  | .ok (res, ready) =>
    let dataPart : Option TreeData × Option TreeStats :=
      match res with
      | some t =>
        match t.data with
        | some d => (some d, some (analyzeObjectTree d.objects))
        | none => (none, none)
      | none => (none, none)
    { data := dataPart.1
      stats := dataPart.2
      status :=
        if ready then "complete"
        else if res.bind TreeResult.isProcessing = some true then "processing"
        else "unavailable"
      errMsg := none }

/-- The properties enrichment of one view, mirroring the object tree one
with `summarizeProperties` over `data.collection`. -/
def propsPart (p : Nat → Except HttpErr PropsResult) : EnrichPart PropsData PropSummary :=
  match pollForResult p propsIsReady 10 with
  | .error e =>
    { data := none, stats := none, status := "error"
      errMsg := some (jsOrStr e.message "Failed to fetch properties") }
  | .ok (res, ready) =>
    let dataPart : Option PropsData × Option PropSummary :=
      match res with
      | some t =>
        match t.data with
        | some d => (some d, some (summarizeProperties d.collection))
        | none => (none, none)
      | none => (none, none)
    { data := dataPart.1
      stats := dataPart.2
      status :=
        if ready then "complete"
        else if res.bind PropsResult.isProcessing = some true then "processing"
        else "unavailable"
      errMsg := none }

/-- One iteration of the view-enrichment loop: build the view entry (with
`urn`/`viewableID` resolved from the guid lookup) and attach both
independently guarded enrichments. -/
def enrichView (t : Nat → Except HttpErr TreeResult) (p : Nat → Except HttpErr PropsResult)
    (rmap : RMap) (vi : ViewInfo) : ViewOut :=
  let tp := treePart t
  let pp := propsPart p
  { guid := vi.guid
    name := vi.name
    role := vi.role
    urn := (rmapGet rmap vi.guid).bind (fun r => r.fields.urn)
    viewableID := (rmapGet rmap vi.guid).bind (fun r => r.fields.viewableID)
    objectTree := tp.data
    objectTreeStats := tp.stats
    objectTreeStatus := tp.status
    objectTreeError := tp.errMsg
    properties := pp.data
    propertiesStats := pp.stats
    propertiesStatus := pp.status
    propertiesError := pp.errMsg }

/-- The environment of remote responses: the manifest read for each polling
attempt, the one-shot view listing (`none` when `modelViews?.data?.metadata`
is absent), and the per-view, per-attempt object-tree and properties
responses keyed by the view guid. -/
structure Env where
  getManifest : Nat → Except HttpErr Manifest
  getModelViews : Except HttpErr (Option (List ViewInfo))
  getObjectTree : String → Nat → Except HttpErr TreeResult
  getAllProperties : String → Nat → Except HttpErr PropsResult

/-- `enrichView` wired to the environment's fetchers for the view's guid. -/
def enrichViewE (env : Env) (rmap : RMap) (vi : ViewInfo) : ViewOut :=
  enrichView (env.getObjectTree vi.guid) (env.getAllProperties vi.guid) rmap vi

/-- The `for (const view of metadata.modelViews)` enrichment loop. -/
def processViews (env : Env) (rmap : RMap) : List ViewInfo → List ViewOut
  | [] => []
  | v :: rest => enrichViewE env rmap v :: processViews env rmap rest

/-- The minimal "empty success" document returned when the manifest has no
derivatives. -/
def emptyDoc (manifest : Manifest) : Metadata :=
  { fileName := ""
    sourceUrn := manifest.urn
    status := manifest.status
    progress := manifest.progress
    region := manifest.region
    hasThumbnail := stringToBoolean manifest.hasThumbnail
    derivatives := []
    modelViews := none
    message := some "File processed but no derivatives generated. This may be expected for simple files." }

/-- The guid lookup for a manifest: `addResourcesToMap(derivative.children)`
over all derivatives in order. -/
def buildResourceMap (derivatives : List ManifestDerivative) : RMap :=
  derivatives.foldl (fun m d => addResourcesToMap d.children m) []

/-- The non-error continuation of the manifest loop: the empty-success
document when there are no derivatives, otherwise the assembled document
with the derivative list, and the enriched view list when the view listing
succeeds with metadata present (a view-listing failure is swallowed). -/
def successPath (env : Env) (manifest : Manifest) : Metadata :=
  if manifest.derivatives.length = 0 then emptyDoc manifest
  else
    let rmap := buildResourceMap manifest.derivatives
    { fileName :=
        (match manifest.derivatives with
         | d :: _ => jsOrStr d.name ""
         | [] => "")
      sourceUrn := manifest.urn
      status := manifest.status
      progress := manifest.progress
      region := manifest.region
      hasThumbnail := stringToBoolean manifest.hasThumbnail
      derivatives := manifest.derivatives.map derivativeOut
      modelViews :=
        match env.getModelViews with
        | .ok (some views) => some (processViews env rmap views)
        | _ => none
      message := none }

/-- The generic diagnostic used when the failed manifest carries no
structured messages. -/
def genericDiag : String :=
  "The file may be corrupted, in an unsupported format, or DXF version is not supported by Autodesk Model Derivative API."

/-- The joined text of a derivative's message list when the field is
present (`derivatives[0].messages` is truthy), else `""`. -/
def derivMsgsText : Option (List ManifestMessage) → String
  | some ms => String.intercalate "; " (ms.map msgText)
  | none => ""

/-- The diagnostic drawn from the first derivative, if any. -/
def firstDerivDetails : List ManifestDerivative → String
  | d :: _ => derivMsgsText d.messages
  | [] => ""

/-- The `errorDetails` computed from a failed manifest: the joined top-level
messages when the list is non-empty, else the joined messages of the first
derivative when that field is present, else `""`. -/
def errorDetails (m : Manifest) : String :=
  if m.messages.length > 0 then String.intercalate "; " (m.messages.map msgText)
  else firstDerivDetails m.derivatives

/-- The message of the error thrown on a failed manifest. -/
def failedMsg (m : Manifest) : String :=
  "Translation job failed. " ++ jsOrS (errorDetails m) genericDiag

/-- The polling budget of the manifest loop. -/
def maxAttempts : Nat := 60

/-- The fixed inter-attempt delay of the manifest loop, in milliseconds. -/
def delayMs : Nat := 2000

/-- The message of the error thrown when the polling budget is exhausted. -/
def timeoutMsg (lastStatus : String) : String :=
  "Metadata extraction timed out after " ++ toString (maxAttempts * delayMs / 1000) ++
    " seconds. Last status: " ++ lastStatus ++
    ". The file may need more processing time - try again in a few minutes."

/-- The error kinds surfaced by `getMetadata`: a failed translation, an
exhausted polling budget, or a propagated transport error. -/
inductive ExtractErr where
  | translationFailed (msg : String)
  | timeout (msg : String)
  | transport (e : HttpErr)

/-- The manifest polling loop of `getMetadata`, structurally recursive on
the remaining attempts; `idx` is the attempt index and `ls` the last
observed status.  A 404 read and a `pending`/`inprogress` status retry after
the delay; a `failed` status throws; every other status proceeds to the
success path; any other error propagates. -/
def getMetadataLoop (env : Env) : Nat → Nat → String → Except ExtractErr Metadata
  | 0, _, ls => .error (.timeout (timeoutMsg ls))
  | fuel + 1, idx, ls =>
    match env.getManifest idx with
    | .error e =>
      if e.statusCode = some 404 then getMetadataLoop env fuel (idx + 1) ls
      else .error (.transport e)
    | .ok m =>
      if m.status = "inprogress" ∨ m.status = "pending" then
        getMetadataLoop env fuel (idx + 1) m.status
      else if m.status = "failed" then .error (.translationFailed (failedMsg m))
      else .ok (successPath env m)

/-- `getMetadata`: run the manifest loop with the full budget, starting with
`lastStatus = ""`. -/
def getMetadata (env : Env) : Except ExtractErr Metadata :=
  getMetadataLoop env maxAttempts 0 ""

/-- A manifest response that keeps the loop polling: a 404 read or a
`pending`/`inprogress` status. -/
def pendingish : Except HttpErr Manifest → Bool
  | .error e => e.statusCode = some 404
  | .ok m => m.status = "pending" ∨ m.status = "inprogress"

/-- The evolution of `lastStatus` across the polled responses: updated on
every successful manifest read, kept on a 404. -/
def statusFold (env : Env) : Nat → Nat → String → String
  | 0, _, ls => ls
  | fuel + 1, idx, ls =>
    match env.getManifest idx with
    | .ok m => statusFold env fuel (idx + 1) m.status
    | .error _ => statusFold env fuel (idx + 1) ls

/-- The last observed status over a full polling budget. -/
def lastObservedStatus (env : Env) : String :=
  statusFold env maxAttempts 0 ""

/-- String containment: `t` occurs contiguously inside `s`. -/
def containsStr (s t : String) : Prop :=
  ∃ a b : String, s = a ++ t ++ b

section PollLemmas

variable {ε α : Type} (f : Nat → Except ε α) (r : Option α → Bool)

/-- If the fetch at offset `k` succeeds with a ready result and every
earlier fetch succeeded without readiness, the loop stops there. -/
theorem pollLoop_ready :
    ∀ (k fuel idx : Nat) (last : Option α) (v : α), k < fuel →
      f (idx + k) = .ok v → r (some v) = true →
      (∀ j, j < k → ∃ w, f (idx + j) = .ok w ∧ r (some w) = false) →
      pollLoop f r fuel idx last = .ok (some v, true) := by
  intro k
  induction k with
  | zero =>
    intro fuel idx last v hk hf hr _
    cases fuel with
    | zero => omega
    | succ fu =>
      rw [Nat.add_zero] at hf
      simp only [pollLoop, hf, hr, if_true]
  | succ k ih =>
    intro fuel idx last v hk hf hr hprev
    cases fuel with
    | zero => omega
    | succ fu =>
      obtain ⟨w, hw, hwr⟩ := hprev 0 (by omega)
      rw [Nat.add_zero] at hw
      simp only [pollLoop, hw, hwr, Bool.false_eq_true, if_false]
      apply ih fu (idx + 1) (some w) v (by omega)
      · rw [show idx + 1 + k = idx + (k + 1) from by omega]
        exact hf
      · exact hr
      · intro j hj
        have h := hprev (j + 1) (by omega)
        rwa [show idx + (j + 1) = idx + 1 + j from by omega] at h
  
/-- If every fetch in the budget succeeds but none is ready, the loop
returns the last fetched result with `ready = false`. -/
theorem pollLoop_notReady :
    ∀ (fuel idx : Nat) (last : Option α) (v : α), 0 < fuel →
      f (idx + fuel - 1) = .ok v →
      (∀ j, j < fuel → ∃ w, f (idx + j) = .ok w ∧ r (some w) = false) →
      pollLoop f r fuel idx last = .ok (some v, false) := by
  intro fuel
  induction fuel with
  | zero => omega
  | succ fu ih =>
    intro idx last v _ hf hall
    obtain ⟨w, hw, hwr⟩ := hall 0 (by omega)
    rw [Nat.add_zero] at hw
    cases fu with
    | zero =>
      rw [show idx + 1 - 1 = idx + 0 from by omega, Nat.add_zero] at hf
      rw [hf] at hw
      cases hw
      simp only [pollLoop, hf, hwr, Bool.false_eq_true, if_false]
    | succ fv =>
      simp only [pollLoop, hw, hwr, Bool.false_eq_true, if_false]
      apply ih (idx + 1) (some w) v (by omega)
      · rw [show idx + 1 + (fv + 1) - 1 = idx + (fv + 1 + 1) - 1 from by omega]
        exact hf
      · intro j hj
        have h := hall (j + 1) (by omega)
        rwa [show idx + (j + 1) = idx + 1 + j from by omega] at h

/-- If the fetch at offset `k` throws and every earlier fetch succeeded
without readiness, the loop propagates that error at once. -/
theorem pollLoop_err :
    ∀ (k fuel idx : Nat) (last : Option α) (e : ε), k < fuel →
      f (idx + k) = .error e →
      (∀ j, j < k → ∃ w, f (idx + j) = .ok w ∧ r (some w) = false) →
      pollLoop f r fuel idx last = .error e := by
  intro k
  induction k with
  | zero =>
    intro fuel idx last e hk hf _
    cases fuel with
    | zero => omega
    | succ fu =>
      rw [Nat.add_zero] at hf
      simp only [pollLoop, hf]
  | succ k ih =>
    intro fuel idx last e hk hf hprev
    cases fuel with
    | zero => omega
    | succ fu =>
      obtain ⟨w, hw, hwr⟩ := hprev 0 (by omega)
      rw [Nat.add_zero] at hw
      simp only [pollLoop, hw, hwr, Bool.false_eq_true, if_false]
      apply ih fu (idx + 1) (some w) e (by omega)
      · rw [show idx + 1 + k = idx + (k + 1) from by omega]
        exact hf
      · intro j hj
        have h := hprev (j + 1) (by omega)
        rwa [show idx + (j + 1) = idx + 1 + j from by omega] at h

end PollLemmas

/-- C2.  PollLoop contract: `pollForResult` stops on the first fetched
result satisfying the readiness predicate, returning it with `ready = true`;
if the attempt budget is exhausted without readiness it returns the last
fetched result with `ready = false`; and an error thrown by the fetch
operation is never retried — it propagates immediately. -/
theorem pollForResult_contract {ε α : Type} (f : Nat → Except ε α) (r : Option α → Bool)
    (attempts : Nat) :
    (∀ (k : Nat) (v : α), k < attempts → f k = .ok v → r (some v) = true →
      (∀ j, j < k → ∃ w, f j = .ok w ∧ r (some w) = false) →
      pollForResult f r attempts = .ok (some v, true))
    ∧ (∀ v : α, 0 < attempts → f (attempts - 1) = .ok v →
      (∀ j, j < attempts → ∃ w, f j = .ok w ∧ r (some w) = false) →
      pollForResult f r attempts = .ok (some v, false))
    ∧ (∀ (k : Nat) (e : ε), k < attempts → f k = .error e →
      (∀ j, j < k → ∃ w, f j = .ok w ∧ r (some w) = false) →
      pollForResult f r attempts = .error e) := by
  refine ⟨fun k v hk hf hr hprev => ?_, fun v ha hf hall => ?_, fun k e hk hf hprev => ?_⟩
  · exact pollLoop_ready f r k attempts 0 none v hk (by rwa [Nat.zero_add]) hr
      (fun j hj => by rw [Nat.zero_add]; exact hprev j hj)
  · exact pollLoop_notReady f r attempts 0 none v ha (by rwa [Nat.zero_add]) 
      (fun j hj => by rw [Nat.zero_add]; exact hall j hj)
  · exact pollLoop_err f r k attempts 0 none e hk (by rwa [Nat.zero_add])
      (fun j hj => by rw [Nat.zero_add]; exact hprev j hj)

/-- Witness for C2: a fetcher that returns its attempt index, readiness at
value 2, budget 5 — the poll stops at attempt 2 with that result. -/
theorem pollForResult_contract_witness :
    pollForResult (fun i => (.ok i : Except Unit Nat)) (fun o => o == some 2) 5 =
      .ok (some 2, true) := by
  apply (pollForResult_contract (fun i => (.ok i : Except Unit Nat)) (fun o => o == some 2) 5).1
    2 2 (by decide) rfl (by decide)
  intro j hj
  exact ⟨j, rfl, by revert hj; revert j; decide⟩

/-- One unfolding of the manifest loop. -/
theorem getMetadataLoop_succ (env : Env) (fuel idx : Nat) (ls : String) :
    getMetadataLoop env (fuel + 1) idx ls =
      match env.getManifest idx with
      | .error e =>
        if e.statusCode = some 404 then getMetadataLoop env fuel (idx + 1) ls
        else .error (.transport e)
      | .ok m =>
        if m.status = "inprogress" ∨ m.status = "pending" then
          getMetadataLoop env fuel (idx + 1) m.status
        else if m.status = "failed" then .error (.translationFailed (failedMsg m))
        else .ok (successPath env m) := rfl

/-- One unfolding of the last-status evolution. -/
theorem statusFold_succ (env : Env) (fuel idx : Nat) (ls : String) :
    statusFold env (fuel + 1) idx ls =
      match env.getManifest idx with
      | .ok m => statusFold env fuel (idx + 1) m.status
      | .error _ => statusFold env fuel (idx + 1) ls := rfl

/-- A first manifest read with a non-pending, non-failed status sends
`getMetadata` straight to the success path. -/
theorem getMetadata_ok (env : Env) (m : Manifest) (h0 : env.getManifest 0 = .ok m)
    (hp : m.status ≠ "pending") (hi : m.status ≠ "inprogress") (hf : m.status ≠ "failed") :
    getMetadata env = .ok (successPath env m) := by
  have step := getMetadataLoop_succ env 59 0 ""
  rw [h0] at step
  simp only [hp, hi, hf, or_self, if_false, false_or, or_false] at step
  exact step

/-- A first manifest read with status `failed` makes `getMetadata` throw the
translation-failed error. -/
theorem getMetadata_failed (env : Env) (m : Manifest) (h0 : env.getManifest 0 = .ok m)
    (hf : m.status = "failed") :
    getMetadata env = .error (.translationFailed (failedMsg m)) := by
  have step := getMetadataLoop_succ env 59 0 ""
  rw [h0] at step
  dsimp only at step
  rw [hf] at step
  simp only [String.reduceEq, or_self, if_false, reduceIte] at step
  exact step

/-- If every response within the remaining budget is a 404 or a
pending/in-progress manifest, the loop ends in the timeout error whose
status is the folded last-observed status. -/
theorem loop_timeout (env : Env) :
    ∀ (fuel idx : Nat) (ls : String),
      (∀ j, j < fuel → pendingish (env.getManifest (idx + j)) = true) →
      getMetadataLoop env fuel idx ls =
        .error (.timeout (timeoutMsg (statusFold env fuel idx ls))) := by
  intro fuel
  induction fuel with
  | zero => intro idx ls _; rfl
  | succ fu ih =>
    intro idx ls hall
    have h0 := hall 0 (by omega)
    rw [Nat.add_zero] at h0
    have hrest : ∀ j, j < fu → pendingish (env.getManifest (idx + 1 + j)) = true := by
      intro j hj
      have h := hall (j + 1) (by omega)
      rwa [show idx + (j + 1) = idx + 1 + j from by omega] at h
    rw [getMetadataLoop_succ, statusFold_succ]
    cases hm : env.getManifest idx with
    | error e =>
      rw [hm] at h0
      simp only [pendingish, decide_eq_true_eq] at h0
      dsimp only
      simp only [h0, if_true]
      exact ih (idx + 1) ls hrest
    | ok m =>
      rw [hm] at h0
      simp only [pendingish, decide_eq_true_eq] at h0
      dsimp only
      rw [if_pos h0.symm]
      exact ih (idx + 1) m.status hrest

/-- C3.  If every manifest read within the 60-attempt budget is a 404 (the
manifest not found yet, retried as implicit pending) or reports
`pending`/`inprogress`, `getMetadata` fails with the timeout error whose
message carries the elapsed budget (120 seconds), the last-observed status,
and an explicit suggestion to try again; moreover a 404 first read followed
by a successful manifest is retried rather than treated as terminal. -/
theorem translation_timeout_spec (env : Env) :
    ((∀ j, j < maxAttempts → pendingish (env.getManifest j) = true) →
      getMetadata env = .error (.timeout (timeoutMsg (lastObservedStatus env)))
      ∧ timeoutMsg (lastObservedStatus env) =
          "Metadata extraction timed out after 120 seconds. Last status: " ++
            lastObservedStatus env ++
            ". The file may need more processing time - try again in a few minutes."
      ∧ containsStr (timeoutMsg (lastObservedStatus env)) "120 seconds"
      ∧ containsStr (timeoutMsg (lastObservedStatus env)) (lastObservedStatus env)
      ∧ containsStr (timeoutMsg (lastObservedStatus env)) "try again")
    ∧ (∀ (e : HttpErr) (m : Manifest), env.getManifest 0 = .error e →
        e.statusCode = some 404 → env.getManifest 1 = .ok m → m.status = "success" →
        getMetadata env = .ok (successPath env m)) := by
  constructor
  · intro hall
    refine ⟨?_, rfl, ?_, ?_, ?_⟩
    · exact loop_timeout env maxAttempts 0 ""
        (fun j hj => by rw [Nat.zero_add]; exact hall j hj)
    · refine ⟨"Metadata extraction timed out after ",
        ". Last status: " ++ lastObservedStatus env ++
          ". The file may need more processing time - try again in a few minutes.", ?_⟩
      show "Metadata extraction timed out after 120 seconds. Last status: " ++
          lastObservedStatus env ++
          ". The file may need more processing time - try again in a few minutes." = _
      rw [show ("Metadata extraction timed out after 120 seconds. Last status: " : String) =
        "Metadata extraction timed out after " ++ "120 seconds" ++ ". Last status: " from rfl]
      simp only [String.append_assoc]
    · exact ⟨"Metadata extraction timed out after 120 seconds. Last status: ",
        ". The file may need more processing time - try again in a few minutes.", rfl⟩
    · refine ⟨"Metadata extraction timed out after 120 seconds. Last status: " ++
          lastObservedStatus env ++ ". The file may need more processing time - ",
        " in a few minutes.", ?_⟩
      show "Metadata extraction timed out after 120 seconds. Last status: " ++
          lastObservedStatus env ++
          ". The file may need more processing time - try again in a few minutes." = _
      rw [show (". The file may need more processing time - try again in a few minutes." : String) =
        ". The file may need more processing time - " ++ "try again" ++ " in a few minutes." from rfl]
      simp only [String.append_assoc]
  · intro e m h0 h404 h1 hs
    have step := getMetadataLoop_succ env 59 0 ""
    rw [h0] at step
    dsimp only at step
    rw [if_pos h404] at step
    have step2 := getMetadataLoop_succ env 58 1 ""
    rw [h1] at step2
    dsimp only at step2
    rw [hs] at step2
    simp only [String.reduceEq, or_self, if_false, reduceIte] at step2
    rw [step2] at step
    exact step

/-- An environment whose manifest stays `pending` forever. -/
def envPendingForever : Env :=
  { getManifest := fun _ => .ok ⟨none, "pending", none, none, .jsUndef, [], []⟩
    getModelViews := .ok none
    getObjectTree := fun _ _ => .error ⟨none, none⟩
    getAllProperties := fun _ _ => .error ⟨none, none⟩ }

/-- Witness for C3: the forever-pending environment times out with the
message built from its last observed status. -/
theorem translation_timeout_spec_witness :
    getMetadata envPendingForever =
      .error (.timeout (timeoutMsg (lastObservedStatus envPendingForever))) :=
  ((translation_timeout_spec envPendingForever).1 (fun _ _ => rfl)).1

/-- C5.  A `success` manifest with zero derivatives yields the minimal
document — no error — with empty derivative and view lists. -/
theorem empty_success_document (env : Env) (m : Manifest)
    (h0 : env.getManifest 0 = .ok m) (hs : m.status = "success")
    (hd : m.derivatives = []) :
    getMetadata env = .ok (emptyDoc m)
    ∧ (emptyDoc m).derivatives = []
    ∧ (emptyDoc m).viewList = [] := by
  refine ⟨?_, rfl, rfl⟩
  rw [getMetadata_ok env m h0 (by simp [hs]) (by simp [hs]) (by simp [hs])]
  simp [successPath, hd]

/-- An environment whose manifest succeeds at once with no derivatives. -/
def envEmptySuccess : Env :=
  { getManifest := fun _ => .ok ⟨some "urn:demo", "success", some "complete", some "US", .jsStr "true", [], []⟩
    getModelViews := .ok none
    getObjectTree := fun _ _ => .error ⟨none, none⟩
    getAllProperties := fun _ _ => .error ⟨none, none⟩ }

/-- Witness for C5 at the concrete empty-success environment. -/
theorem empty_success_document_witness :
    getMetadata envEmptySuccess =
      .ok (emptyDoc ⟨some "urn:demo", "success", some "complete", some "US", .jsStr "true", [], []⟩) :=
  (empty_success_document envEmptySuccess _ rfl rfl rfl).1

/-- The view-enrichment loop never reads the manifest fetcher. -/
theorem processViews_env_update (env : Env) (g' : Nat → Except HttpErr Manifest) (rmap : RMap) :
    ∀ views, processViews { env with getManifest := g' } rmap views = processViews env rmap views := by
  intro views
  induction views with
  | nil => rfl
  | cons v rest ih =>
    simp only [processViews, ih]
    rfl

/-- The success path never reads the manifest fetcher. -/
theorem successPath_env_update (env : Env) (g' : Nat → Except HttpErr Manifest) (m : Manifest) :
    successPath { env with getManifest := g' } m = successPath env m := by
  simp only [successPath, processViews_env_update]

/-- C10.  A first manifest whose status is none of `pending`, `inprogress`
or `failed` — for instance the remote `timeout` status or any unrecognized
string — neither raises an error nor retries: `getMetadata` returns the
document built from that manifest, and any change to the responses of later
polling attempts leaves the outcome untouched. -/
theorem nonterminal_status_success_path (env : Env) (m : Manifest)
    (h0 : env.getManifest 0 = .ok m) (hp : m.status ≠ "pending")
    (hi : m.status ≠ "inprogress") (hf : m.status ≠ "failed") :
    getMetadata env = .ok (successPath env m)
    ∧ ∀ g' : Nat → Except HttpErr Manifest, g' 0 = env.getManifest 0 →
        getMetadata { env with getManifest := g' } = .ok (successPath env m) := by
  refine ⟨getMetadata_ok env m h0 hp hi hf, fun g' hg => ?_⟩
  have h0' : ({ env with getManifest := g' } : Env).getManifest 0 = .ok m := by
    rw [show ({ env with getManifest := g' } : Env).getManifest = g' from rfl, hg, h0]
  rw [getMetadata_ok { env with getManifest := g' } m h0' hp hi hf,
    successPath_env_update]

/-- An environment whose manifest immediately reports the remote `timeout`
status, with one derivative carrying no children. -/
def envRemoteTimeout : Env :=
  { getManifest := fun i =>
      if i = 0 then
        .ok ⟨some "urn:t", "timeout", some "50% complete", some "US", .jsUndef, [],
          [⟨some "drawing.dwg", .jsStr "true", some "svf2", some "graphics", some "success", none, []⟩]⟩
      else .error ⟨some 500, some "must not be read"⟩
    getModelViews := .ok none
    getObjectTree := fun _ _ => .error ⟨none, none⟩
    getAllProperties := fun _ _ => .error ⟨none, none⟩ }

/-- Witness for C10: the `timeout`-status environment goes straight down the
success path even though every later manifest read would be a hard error. -/
theorem nonterminal_status_success_path_witness :
    getMetadata envRemoteTimeout =
      .ok (successPath envRemoteTimeout
        ⟨some "urn:t", "timeout", some "50% complete", some "US", .jsUndef, [],
          [⟨some "drawing.dwg", .jsStr "true", some "svf2", some "graphics", some "success", none, []⟩]⟩) :=
  (nonterminal_status_success_path envRemoteTimeout _ rfl
    (by decide) (by decide) (by decide)).1

/-- A string of the form `P ++ (x || d)` contains `x`: either `x` is kept
verbatim, or `x = ""` which occurs trivially. -/
theorem containsStr_jsOr (P d x : String) : containsStr (P ++ jsOrS x d) x := by
  by_cases hx : x = ""
  · subst hx
    exact ⟨P ++ jsOrS "" d, "", by rw [String.append_empty, String.append_empty]⟩
  · exact ⟨P, "", by rw [jsOrS, if_neg hx, String.append_empty]⟩

/-- C4.  A `failed` manifest makes `getMetadata` throw the
translation-failed error; its message is non-empty and contains the most
specific available diagnostic — the joined top-level manifest messages when
that list is non-empty, else the first derivative's joined messages when
present, else exactly the generic unsupported-or-corrupted-file text. -/
theorem translation_failed_diagnostic (env : Env) (m : Manifest)
    (h0 : env.getManifest 0 = .ok m) (hf : m.status = "failed") :
    getMetadata env = .error (.translationFailed (failedMsg m))
    ∧ failedMsg m ≠ ""
    ∧ (m.messages ≠ [] →
        containsStr (failedMsg m) (String.intercalate "; " (m.messages.map msgText)))
    ∧ (∀ (d : ManifestDerivative) (rest : List ManifestDerivative) (ms : List ManifestMessage),
        m.messages = [] → m.derivatives = d :: rest → d.messages = some ms →
        containsStr (failedMsg m) (String.intercalate "; " (ms.map msgText)))
    ∧ (m.messages = [] →
        (m.derivatives = [] ∨
          ∃ (d : ManifestDerivative) (rest : List ManifestDerivative),
            m.derivatives = d :: rest ∧ d.messages = none) →
        failedMsg m = "Translation job failed. " ++ genericDiag) := by
  refine ⟨getMetadata_failed env m h0 hf, ?_, ?_, ?_, ?_⟩
  · intro h
    have hlen : (failedMsg m).length = 0 := by rw [h]; rfl
    rw [failedMsg, String.length_append] at hlen
    have h24 : ("Translation job failed. " : String).length = 24 := rfl
    omega
  · intro hne
    rw [failedMsg, errorDetails, if_pos (by simpa using List.length_pos.mpr hne)]
    exact containsStr_jsOr _ _ _
  · intro d rest ms hmsg hder hdm
    rw [failedMsg, errorDetails, hmsg, hder]
    simp only [List.length_nil, gt_iff_lt, lt_self_iff_false, if_false,
      firstDerivDetails, hdm, derivMsgsText]
    exact containsStr_jsOr _ _ _
  · intro hmsg hcase
    have hdet : errorDetails m = "" := by
      rw [errorDetails, hmsg]
      simp only [List.length_nil, gt_iff_lt, lt_self_iff_false, if_false]
      rcases hcase with hnil | ⟨d, rest, hder, hdm⟩
      · rw [hnil]
        rfl
      · rw [hder]
        simp only [firstDerivDetails, hdm, derivMsgsText]
    rw [failedMsg, hdet]
    rfl

/-- A concrete failed manifest carrying one top-level message. -/
def mFailed : Manifest :=
  ⟨none, "failed", none, none, .jsUndef,
    [⟨some "Unrecoverable exit code from extractor", none⟩], []⟩

/-- An environment whose manifest immediately reports failure. -/
def envFailed : Env :=
  { getManifest := fun _ => .ok mFailed
    getModelViews := .ok none
    getObjectTree := fun _ _ => .error ⟨none, none⟩
    getAllProperties := fun _ _ => .error ⟨none, none⟩ }

/-- Witness for C4 at the concrete failed environment. -/
theorem translation_failed_diagnostic_witness :
    getMetadata envFailed = .error (.translationFailed (failedMsg mFailed))
    ∧ containsStr (failedMsg mFailed)
        (String.intercalate "; " (mFailed.messages.map msgText)) :=
  ⟨(translation_failed_diagnostic envFailed mFailed rfl rfl).1,
   (translation_failed_diagnostic envFailed mFailed rfl rfl).2.2.1 (by decide)⟩

/-- C1.  Failure isolation of the enrichment stage: (i) the view loop
enriches every view independently; (ii) a view's object-tree outcome is
untouched by the properties fetcher and vice versa; (iii) once the manifest
leaves the polling states without failing, `getMetadata` returns a document
whatever the view, tree or properties fetchers do; (iv) a properties fetch
that throws on its first attempt ends in `propertiesStatus = "error"` with
the message captured, while an immediately ready object tree of the same
view still reports `"complete"`. -/
theorem enrichment_failure_isolation :
    (∀ (env : Env) (rmap : RMap) (views : List ViewInfo),
      processViews env rmap views = views.map (enrichViewE env rmap))
    ∧ (∀ (t : Nat → Except HttpErr TreeResult) (p p' : Nat → Except HttpErr PropsResult)
        (rmap : RMap) (vi : ViewInfo),
        (enrichView t p rmap vi).objectTreeStatus = (enrichView t p' rmap vi).objectTreeStatus
        ∧ (enrichView t p rmap vi).objectTreeError = (enrichView t p' rmap vi).objectTreeError
        ∧ (enrichView t p rmap vi).objectTreeStats = (enrichView t p' rmap vi).objectTreeStats)
    ∧ (∀ (t t' : Nat → Except HttpErr TreeResult) (p : Nat → Except HttpErr PropsResult)
        (rmap : RMap) (vi : ViewInfo),
        (enrichView t p rmap vi).propertiesStatus = (enrichView t' p rmap vi).propertiesStatus
        ∧ (enrichView t p rmap vi).propertiesError = (enrichView t' p rmap vi).propertiesError
        ∧ (enrichView t p rmap vi).propertiesStats = (enrichView t' p rmap vi).propertiesStats)
    ∧ (∀ (env : Env) (m : Manifest), env.getManifest 0 = .ok m →
        m.status ≠ "pending" → m.status ≠ "inprogress" → m.status ≠ "failed" →
        getMetadata env = .ok (successPath env m))
    ∧ (∀ (t : Nat → Except HttpErr TreeResult) (p : Nat → Except HttpErr PropsResult)
        (rmap : RMap) (vi : ViewInfo) (e : HttpErr) (r : TreeResult),
        p 0 = .error e → t 0 = .ok r → treeIsReady (some r) = true →
        (enrichView t p rmap vi).propertiesStatus = "error"
        ∧ (enrichView t p rmap vi).propertiesError =
            some (jsOrStr e.message "Failed to fetch properties")
        ∧ (enrichView t p rmap vi).objectTreeStatus = "complete") := by
  refine ⟨?_, ?_, ?_, ?_, ?_⟩
  · intro env rmap views
    induction views with
    | nil => rfl
    | cons v rest ih => simp only [processViews, List.map, ih]
  · intro t p p' rmap vi
    exact ⟨rfl, rfl, rfl⟩
  · intro t t' p rmap vi
    exact ⟨rfl, rfl, rfl⟩
  · exact getMetadata_ok
  · intro t p rmap vi e r hp ht hr
    have hpoll : pollForResult p propsIsReady 10 = .error e := by
      rw [show (10 : Nat) = 9 + 1 from rfl, pollForResult, pollLoop, hp]
    have htoll : pollForResult t treeIsReady 10 = .ok (some r, true) := by
      rw [show (10 : Nat) = 9 + 1 from rfl, pollForResult, pollLoop, ht]
      simp only [hr, if_true]
    refine ⟨?_, ?_, ?_⟩
    · show (propsPart p).status = "error"
      rw [propsPart, hpoll]
    · show (propsPart p).errMsg = some (jsOrStr e.message "Failed to fetch properties")
      rw [propsPart, hpoll]
    · show (treePart t).status = "complete"
      rw [treePart, htoll]
      rfl

/-- A tree fetcher that is immediately ready with an empty object list. -/
def treeFetchReady : Nat → Except HttpErr TreeResult :=
  fun _ => .ok ⟨some false, some ⟨[]⟩⟩

/-- A properties fetcher that throws a transport error at once. -/
def propsFetchThrow : Nat → Except HttpErr PropsResult :=
  fun _ => .error ⟨none, some "socket hang up"⟩

/-- A concrete view entry. -/
def viewDemo : ViewInfo := ⟨"g1", some "Model", some "3d"⟩

/-- Witness for C1: with a throwing properties fetcher and a ready tree
fetcher, the same view ends with `propertiesStatus = "error"`, the captured
message, and `objectTreeStatus = "complete"`. -/
theorem enrichment_failure_isolation_witness :
    (enrichView treeFetchReady propsFetchThrow [] viewDemo).propertiesStatus = "error"
    ∧ (enrichView treeFetchReady propsFetchThrow [] viewDemo).propertiesError =
        some "socket hang up"
    ∧ (enrichView treeFetchReady propsFetchThrow [] viewDemo).objectTreeStatus = "complete" :=
  enrichment_failure_isolation.2.2.2.2 treeFetchReady propsFetchThrow [] viewDemo
    ⟨none, some "socket hang up"⟩ ⟨some false, some ⟨[]⟩⟩ rfl rfl (by decide)

/-- Status and error of the tree enrichment when the poll throws. -/
theorem treePart_error_status (t : Nat → Except HttpErr TreeResult) (e : HttpErr)
    (h : pollForResult t treeIsReady 10 = .error e) :
    (treePart t).status = "error"
    ∧ (treePart t).errMsg = some (jsOrStr e.message "Failed to fetch object tree") := by
  constructor <;> rw [treePart, h]

/-- Status of the tree enrichment when the poll returns normally. -/
theorem treePart_ok_status (t : Nat → Except HttpErr TreeResult)
    (res : Option TreeResult) (ready : Bool)
    (h : pollForResult t treeIsReady 10 = .ok (res, ready)) :
    (treePart t).status =
      if ready then "complete"
      else if res.bind TreeResult.isProcessing = some true then "processing"
      else "unavailable" := by
  rw [treePart, h]

/-- Status and error of the properties enrichment when the poll throws. -/
theorem propsPart_error_status (p : Nat → Except HttpErr PropsResult) (e : HttpErr)
    (h : pollForResult p propsIsReady 10 = .error e) :
    (propsPart p).status = "error"
    ∧ (propsPart p).errMsg = some (jsOrStr e.message "Failed to fetch properties") := by
  constructor <;> rw [propsPart, h]

/-- Status of the properties enrichment when the poll returns normally. -/
theorem propsPart_ok_status (p : Nat → Except HttpErr PropsResult)
    (res : Option PropsResult) (ready : Bool)
    (h : pollForResult p propsIsReady 10 = .ok (res, ready)) :
    (propsPart p).status =
      if ready then "complete"
      else if res.bind PropsResult.isProcessing = some true then "processing"
      else "unavailable" := by
  rw [propsPart, h]

/-- C6.  After enrichment both status fields of a view hold one of the four
final enum values — never left unset — according to the outcome: `complete`
when readiness was reached, `processing` when the last fetched result still
reported processing at budget exhaustion, `unavailable` otherwise (no data
arrived), `error` (message captured) when the fetch threw; in particular a
tree fetch that reports still-processing on every attempt ends as
`processing`, not `error` and not `complete`. -/
theorem view_status_assignment (t : Nat → Except HttpErr TreeResult)
    (p : Nat → Except HttpErr PropsResult) (rmap : RMap) (vi : ViewInfo) :
    ((enrichView t p rmap vi).objectTreeStatus ∈
      (["complete", "processing", "unavailable", "error"] : List String)
      ∧ (enrichView t p rmap vi).propertiesStatus ∈
        (["complete", "processing", "unavailable", "error"] : List String))
    ∧ (∀ res, pollForResult t treeIsReady 10 = .ok (res, true) →
        (enrichView t p rmap vi).objectTreeStatus = "complete")
    ∧ (∀ res, pollForResult t treeIsReady 10 = .ok (res, false) →
        (res.bind TreeResult.isProcessing = some true →
          (enrichView t p rmap vi).objectTreeStatus = "processing")
        ∧ (res.bind TreeResult.isProcessing ≠ some true →
          (enrichView t p rmap vi).objectTreeStatus = "unavailable"))
    ∧ (∀ e, pollForResult t treeIsReady 10 = .error e →
        (enrichView t p rmap vi).objectTreeStatus = "error"
        ∧ (enrichView t p rmap vi).objectTreeError =
            some (jsOrStr e.message "Failed to fetch object tree"))
    ∧ (∀ res, pollForResult p propsIsReady 10 = .ok (res, true) →
        (enrichView t p rmap vi).propertiesStatus = "complete")
    ∧ (∀ res, pollForResult p propsIsReady 10 = .ok (res, false) →
        (res.bind PropsResult.isProcessing = some true →
          (enrichView t p rmap vi).propertiesStatus = "processing")
        ∧ (res.bind PropsResult.isProcessing ≠ some true →
          (enrichView t p rmap vi).propertiesStatus = "unavailable"))
    ∧ (∀ e, pollForResult p propsIsReady 10 = .error e →
        (enrichView t p rmap vi).propertiesStatus = "error"
        ∧ (enrichView t p rmap vi).propertiesError =
            some (jsOrStr e.message "Failed to fetch properties"))
    ∧ ((∀ i, i < 10 → ∃ r, t i = .ok r ∧ r.isProcessing = some true) →
        (enrichView t p rmap vi).objectTreeStatus = "processing"
        ∧ (enrichView t p rmap vi).objectTreeStatus ≠ "error"
        ∧ (enrichView t p rmap vi).objectTreeStatus ≠ "complete") := by
  have hts : (enrichView t p rmap vi).objectTreeStatus = (treePart t).status := rfl
  have hte : (enrichView t p rmap vi).objectTreeError = (treePart t).errMsg := rfl
  have hps : (enrichView t p rmap vi).propertiesStatus = (propsPart p).status := rfl
  have hpe : (enrichView t p rmap vi).propertiesError = (propsPart p).errMsg := rfl
  refine ⟨⟨?_, ?_⟩, ?_, ?_, ?_, ?_, ?_, ?_, ?_⟩
  · rw [hts]
    rcases h : pollForResult t treeIsReady 10 with e | ⟨res, ready⟩
    · rw [(treePart_error_status t e h).1]
      simp
    · rw [treePart_ok_status t res ready h]
      rcases ready with _ | _
      · by_cases hb : res.bind TreeResult.isProcessing = some true <;> simp [hb]
      · simp
  · rw [hps]
    rcases h : pollForResult p propsIsReady 10 with e | ⟨res, ready⟩
    · rw [(propsPart_error_status p e h).1]
      simp
    · rw [propsPart_ok_status p res ready h]
      rcases ready with _ | _
      · by_cases hb : res.bind PropsResult.isProcessing = some true <;> simp [hb]
      · simp
  · intro res h
    rw [hts, treePart_ok_status t res true h, if_pos rfl]
  · intro res h
    rw [hts, treePart_ok_status t res false h]
    exact ⟨fun hb => by simp [hb], fun hb => by simp [hb]⟩
  · intro e h
    rw [hts, hte]
    exact treePart_error_status t e h
  · intro res h
    rw [hps, propsPart_ok_status p res true h, if_pos rfl]
  · intro res h
    rw [hps, propsPart_ok_status p res false h]
    exact ⟨fun hb => by simp [hb], fun hb => by simp [hb]⟩
  · intro e h
    rw [hps, hpe]
    exact propsPart_error_status p e h
  · intro hall
    obtain ⟨r9, h9, h9p⟩ := hall 9 (by omega)
    have hnr : ∀ j, j < 10 → ∃ w, t (0 + j) = .ok w ∧ treeIsReady (some w) = false := by
      intro j hj
      obtain ⟨r, hr, hrp⟩ := hall j hj
      rw [Nat.zero_add]
      exact ⟨r, hr, by simp [treeIsReady, hrp]⟩
    have hpoll : pollForResult t treeIsReady 10 = .ok (some r9, false) :=
      pollLoop_notReady t treeIsReady 10 0 none r9 (by omega) (by simpa using h9) hnr
    have hst : (enrichView t p rmap vi).objectTreeStatus = "processing" := by
      rw [hts, treePart_ok_status t (some r9) false hpoll]
      simp [Option.bind, h9p]
    exact ⟨hst, by rw [hst]; decide, by rw [hst]; decide⟩

/-- A tree fetcher that reports still-processing on every attempt. -/
def treeFetchBusy : Nat → Except HttpErr TreeResult :=
  fun _ => .ok ⟨some true, none⟩

/-- Witness for C6: an always-still-processing tree fetch ends with
`objectTreeStatus = "processing"`. -/
theorem view_status_assignment_witness :
    (enrichView treeFetchBusy propsFetchThrow [] viewDemo).objectTreeStatus = "processing" :=
  ((view_status_assignment treeFetchBusy propsFetchThrow [] viewDemo).2.2.2.2.2.2.2
    (fun _ _ => ⟨⟨some true, none⟩, rfl, rfl⟩)).1

/-- Closed form of the traversal: it adds the total node count to the
accumulator and raises the depth accumulator to the deepest visited level. -/
theorem traverseList_eq :
    ∀ (l : List TreeNode) (depth cnt md : Nat),
      traverseList l depth (cnt, md) =
        (cnt + totalNodes l,
         if l.length = 0 then md else max md (depth + longestChain l - 1))
  | [], depth, cnt, md => by
    simp [traverseList, totalNodes]
  | TreeNode.mk c :: rest, depth, cnt, md => by
    have hif : (if depth > md then depth else md) = max md depth := by
      split <;> omega
    have hchain : ∀ l' : List TreeNode, l' ≠ [] → 0 < longestChain l' := by
      intro l' hl
      match l' with
      | TreeNode.mk c' :: r' => simp only [longestChain]; omega
    simp only [traverseList, hif]
    by_cases hc : c.length > 0
    · rw [if_pos hc]
      rw [traverseList_eq c (depth + 1) (cnt + 1) (max md depth)]
      have hc0 : ¬(c.length = 0) := by omega
      rw [if_neg hc0]
      rw [traverseList_eq rest depth (cnt + 1 + totalNodes c)
        (max (max md depth) (depth + 1 + longestChain c - 1))]
      have hcpos : 0 < longestChain c := hchain c (by intro h; rw [h] at hc; simp at hc)
      by_cases hr : rest.length = 0
      · have : rest = [] := List.length_eq_zero.mp hr
        subst this
        simp only [totalNodes, longestChain, List.length_cons, List.length_nil, if_pos rfl]
        refine congrArg₂ Prod.mk (by omega) ?_
        simp only [longestChain, List.length_nil, List.length_cons, Nat.add_one, Nat.succ_ne_zero, if_false, if_true, ite_true, ite_false, eq_self_iff_true]
        omega
      · have hrne : rest ≠ [] := by intro h; rw [h] at hr; simp at hr
        have hrpos : 0 < longestChain rest := hchain rest hrne
        rw [if_neg hr]
        simp only [totalNodes, longestChain, List.length_cons]
        refine congrArg₂ Prod.mk (by omega) ?_
        simp only [longestChain, List.length_nil, List.length_cons, Nat.add_one, Nat.succ_ne_zero, if_false, if_true, ite_true, ite_false, eq_self_iff_true]
        omega
    · rw [if_neg hc]
      have hc0 : c.length = 0 := by omega
      have hcnil : c = [] := List.length_eq_zero.mp hc0
      subst hcnil
      rw [traverseList_eq rest depth (cnt + 1) (max md depth)]
      by_cases hr : rest.length = 0
      · have : rest = [] := List.length_eq_zero.mp hr
        subst this
        simp only [totalNodes, longestChain, List.length_cons, List.length_nil, if_pos rfl]
        refine congrArg₂ Prod.mk (by omega) ?_
        simp only [longestChain, List.length_nil, List.length_cons, Nat.add_one, Nat.succ_ne_zero, if_false, if_true, ite_true, ite_false, eq_self_iff_true]
        omega
      · have hrne : rest ≠ [] := by intro h; rw [h] at hr; simp at hr
        have hrpos : 0 < longestChain rest := hchain rest hrne
        rw [if_neg hr]
        simp only [totalNodes, longestChain, List.length_cons]
        refine congrArg₂ Prod.mk (by omega) ?_
        simp only [longestChain, List.length_nil, List.length_cons, Nat.add_one, Nat.succ_ne_zero, if_false, if_true, ite_true, ite_false, eq_self_iff_true]
        omega
termination_by l => sizeOf l
decreasing_by all_goals (simp; try omega)

/-- A non-empty node list has a chain of length at least one. -/
theorem longestChain_pos : ∀ l : List TreeNode, l ≠ [] → 0 < longestChain l
  | TreeNode.mk _ :: _, _ => by simp only [longestChain]; omega
  | [], h => absurd rfl h

/-- C7.  `analyzeObjectTree` returns the total number of nodes of the whole
tree (depth-first) as `nodeCount` and the length of the longest
root-to-leaf chain (root at depth 1) as `maxDepth`; on the root-with-two-
children-one-grandchild example this is `(4, 3)`, and on an empty list
`(0, 0)`. -/
theorem analyzeObjectTree_spec :
    (∀ ns : List TreeNode, analyzeObjectTree ns = ⟨totalNodes ns, longestChain ns⟩)
    ∧ analyzeObjectTree [TreeNode.mk [TreeNode.mk [TreeNode.mk []], TreeNode.mk []]] = ⟨4, 3⟩
    ∧ analyzeObjectTree [] = ⟨0, 0⟩ := by
  have hmain : ∀ ns : List TreeNode, analyzeObjectTree ns = ⟨totalNodes ns, longestChain ns⟩ := by
    intro ns
    rw [analyzeObjectTree]
    by_cases h : ns.length = 0
    · rw [if_pos h]
      have hnil : ns = [] := List.length_eq_zero.mp h
      subst hnil
      simp [totalNodes, longestChain]
    · rw [if_neg h]
      have hne : ns ≠ [] := by intro hh; rw [hh] at h; simp at h
      have hpos : 0 < longestChain ns := longestChain_pos ns hne
      rw [traverseList_eq ns 1 0 0, if_neg h]
      simp only [TreeStats.mk.injEq]
      exact ⟨by omega, by omega⟩
  refine ⟨hmain, ?_, ?_⟩
  · rw [hmain]
    simp [totalNodes, longestChain]
  · rw [hmain]
    simp [totalNodes, longestChain]

/-- `setAdd` preserves distinctness of the set representation. -/
theorem setAdd_nodup (cats : List String) (k : String) (h : cats.Nodup) :
    (setAdd cats k).Nodup := by
  rw [setAdd]
  split
  · exact h
  · rename_i hk
    simp [List.nodup_append, h, hk]

/-- `setAdd` inserts the key into the represented finite set. -/
theorem setAdd_toFinset (cats : List String) (k : String) :
    (setAdd cats k).toFinset = insert k cats.toFinset := by
  rw [setAdd]
  split
  · rename_i hk
    rw [Finset.insert_eq_self.mpr (List.mem_toFinset.mpr hk)]
  · simp only [List.toFinset_append, List.toFinset_cons, List.toFinset_nil, insert_emptyc_eq]
    rw [Finset.union_comm, ← Finset.insert_eq]

/-- The property counter accumulates the key counts of the category list. -/
theorem foldStep_snd (ps : List (String × Option (List String))) :
    ∀ (cats : List String) (pc : Nat),
      (ps.foldl summarizeStep (cats, pc)).2 =
        pc + (ps.map (fun kv =>
          match kv.2 with
          | some keys => keys.length
          | none => 0)).sum := by
  induction ps with
  | nil => intro cats pc; simp
  | cons kv rest ih =>
    intro cats pc
    simp only [List.foldl_cons, List.map_cons, List.sum_cons]
    rw [show summarizeStep (cats, pc) kv =
      (setAdd cats kv.1, pc + match kv.2 with
        | some keys => keys.length
        | none => 0) from by rcases kv with ⟨k, _ | ks⟩ <;> rfl]
    rw [ih]
    omega

/-- The category set stays duplicate-free along the fold. -/
theorem foldStep_nodup (ps : List (String × Option (List String))) :
    ∀ (cats : List String) (pc : Nat), cats.Nodup →
      (ps.foldl summarizeStep (cats, pc)).1.Nodup := by
  induction ps with
  | nil => intro cats pc h; exact h
  | cons kv rest ih =>
    intro cats pc h
    simp only [List.foldl_cons]
    rw [show summarizeStep (cats, pc) kv =
      (setAdd cats kv.1, pc + match kv.2 with
        | some keys => keys.length
        | none => 0) from by rcases kv with ⟨k, _ | ks⟩ <;> rfl]
    exact ih _ _ (setAdd_nodup cats kv.1 h)

/-- The category set accumulates exactly the keys of the category list. -/
theorem foldStep_toFinset (ps : List (String × Option (List String))) :
    ∀ (cats : List String) (pc : Nat),
      (ps.foldl summarizeStep (cats, pc)).1.toFinset =
        cats.toFinset ∪ (ps.map Prod.fst).toFinset := by
  induction ps with
  | nil => intro cats pc; simp
  | cons kv rest ih =>
    intro cats pc
    simp only [List.foldl_cons, List.map_cons, List.toFinset_cons]
    rw [show summarizeStep (cats, pc) kv =
      (setAdd cats kv.1, pc + match kv.2 with
        | some keys => keys.length
        | none => 0) from by rcases kv with ⟨k, _ | ks⟩ <;> rfl]
    rw [ih, setAdd_toFinset]
    simp [Finset.insert_union, Finset.union_insert]

/-- Collection-level property count. -/
theorem foldEntries_snd (coll : List PropEntry) :
    ∀ acc : List String × Nat,
      (coll.foldl summarizeEntry acc).2 = acc.2 + totalPropertyKeys coll := by
  induction coll with
  | nil => intro acc; simp [totalPropertyKeys]
  | cons e rest ih =>
    intro acc
    obtain ⟨cats, pc⟩ := acc
    simp only [List.foldl_cons]
    rw [ih (summarizeEntry (cats, pc) e)]
    rw [show summarizeEntry (cats, pc) e = e.properties.foldl summarizeStep (cats, pc) from rfl]
    have h2 := foldStep_snd e.properties cats pc
    rw [show (e.properties.foldl summarizeStep (cats, pc)).2 =
      pc + (e.properties.map (fun kv =>
        match kv.2 with
        | some keys => keys.length
        | none => 0)).sum from h2]
    simp only [totalPropertyKeys, List.map_cons, List.sum_cons]
    omega

/-- Collection-level distinctness of the category set. -/
theorem foldEntries_nodup (coll : List PropEntry) :
    ∀ acc : List String × Nat, acc.1.Nodup →
      (coll.foldl summarizeEntry acc).1.Nodup := by
  induction coll with
  | nil => intro acc h; exact h
  | cons e rest ih =>
    intro acc h
    obtain ⟨cats, pc⟩ := acc
    simp only [List.foldl_cons]
    exact ih _ (foldStep_nodup e.properties cats pc h)

/-- Collection-level content of the category set. -/
theorem foldEntries_toFinset (coll : List PropEntry) :
    ∀ acc : List String × Nat,
      (coll.foldl summarizeEntry acc).1.toFinset =
        acc.1.toFinset ∪ (allCategoryKeys coll).toFinset := by
  induction coll with
  | nil => intro acc; simp [allCategoryKeys]
  | cons e rest ih =>
    intro acc
    obtain ⟨cats, pc⟩ := acc
    simp only [List.foldl_cons]
    rw [ih]
    rw [show (summarizeEntry (cats, pc) e).1 = (e.properties.foldl summarizeStep (cats, pc)).1 from rfl]
    rw [foldStep_toFinset]
    simp only [allCategoryKeys, List.map_cons, List.flatten_cons, List.toFinset_append]
    rw [Finset.union_assoc]

/-- C8.  `summarizeProperties` returns the collection length as
`objectCount`, the number of distinct category keys across all objects (a
deduplicated global union) as `categoryCount`, and the sum over all objects
and categories of the per-category key counts (duplicates across objects
counted independently) as `propertyCount`; on the two-object example the
result is `(2, 2, 4)`. -/
theorem summarizeProperties_spec :
    (∀ coll : List PropEntry,
      summarizeProperties coll =
        ⟨coll.length, (allCategoryKeys coll).toFinset.card, totalPropertyKeys coll⟩)
    ∧ summarizeProperties
        [⟨[("Dimensions", some ["Width", "Height"]), ("Material", some ["Name"])]⟩,
         ⟨[("Dimensions", some ["Width"])]⟩] = ⟨2, 2, 4⟩ := by
  have hmain : ∀ coll : List PropEntry,
      summarizeProperties coll =
        ⟨coll.length, (allCategoryKeys coll).toFinset.card, totalPropertyKeys coll⟩ := by
    intro coll
    rw [summarizeProperties]
    by_cases h : coll.length = 0
    · rw [if_pos h]
      have hnil : coll = [] := List.length_eq_zero.mp h
      subst hnil
      simp [allCategoryKeys, totalPropertyKeys]
    · rw [if_neg h]
      have hnodup : (coll.foldl summarizeEntry ([], 0)).1.Nodup :=
        foldEntries_nodup coll ([], 0) List.nodup_nil
      have hcard := List.toFinset_card_of_nodup hnodup
      have hfin := foldEntries_toFinset coll ([], 0)
      have hsnd := foldEntries_snd coll ([], 0)
      simp only [List.toFinset_nil, Finset.empty_union] at hfin
      simp only [PropSummary.mk.injEq]
      refine ⟨trivial, ?_, by rw [hsnd]; simp⟩
      rw [← hcard, hfin]
  exact ⟨hmain, by rw [hmain]; rfl⟩

/-- A leaf resource nested one level down. -/
def grandchildRes : ManifestResource :=
  .mk ⟨some "g2", some "Sheet", some "geometry", some "urn:r2", some "2d", some "v2",
    .jsStr "false", some "complete"⟩ []

/-- A top-level resource holding one nested child. -/
def childRes : ManifestResource :=
  .mk ⟨some "g1", some "Model", some "resource", some "urn:r1", some "graphics", some "v1",
    .jsStr "true", some "complete"⟩ [grandchildRes]

/-- A derivative whose resource tree has depth two. -/
def derivNested : ManifestDerivative :=
  ⟨some "drawing.dwg", .jsStr "true", some "svf2", some "graphics", some "success", none,
    [childRes]⟩

/-- A successful manifest carrying the nested derivative. -/
def manifestNested : Manifest :=
  ⟨some "urn:9", "success", some "complete", some "US", .jsStr "true", [], [derivNested]⟩

/-- An environment delivering the nested manifest at once. -/
def envNested : Env :=
  { getManifest := fun _ => .ok manifestNested
    getModelViews := .ok none
    getObjectTree := fun _ _ => .error ⟨none, none⟩
    getAllProperties := fun _ _ => .error ⟨none, none⟩ }

/-- The document the code builds for the nested manifest. -/
def docNested : Metadata := successPath envNested manifestNested

/-- C9 counterexample: for the depth-two resource tree the returned
derivative's `resources` list has a single entry (the immediate child) while
the flattened resource tree of the claim has two — so the derivative is not
annotated with its flattened resource list including nested children. -/
theorem derivative_resources_counterexample :
    getMetadata envNested = .ok docNested
    ∧ docNested.derivatives.map (fun d => d.resources.length) = [1]
    ∧ manifestNested.derivatives.map (fun d => (flattenResources d.children).length) = [2]
    ∧ docNested.derivatives.map DerivativeOut.resources ≠
        manifestNested.derivatives.map (fun d => (flattenResources d.children).map resourceOut) := by
  have hflat : flattenResources derivNested.children = [childRes, grandchildRes] := by
    simp [flattenResources, derivNested, childRes, grandchildRes, ManifestResource.children]
  refine ⟨?_, rfl, ?_, ?_⟩
  · exact getMetadata_ok envNested manifestNested rfl (by decide) (by decide) (by decide)
  · show [(flattenResources derivNested.children).length] = [2]
    rw [hflat]
    rfl
  · have h5 : manifestNested.derivatives.map
        (fun d => (flattenResources d.children).map resourceOut) =
        [[resourceOut childRes, resourceOut grandchildRes]] := by
      show [(flattenResources derivNested.children).map resourceOut] = _
      rw [hflat]
      rfl
    rw [h5]
    have h4 : docNested.derivatives.map DerivativeOut.resources = [[resourceOut childRes]] := rfl
    rw [h4]
    decide

/-- C9 amended.  For every successful manifest with at least one derivative,
each derivative in the returned document is annotated with the summaries of
its immediate child resources only (the full flattened tree feeds the
internal guid lookup used for view resolution, not this list), and every
derivative always has a `resources` list, possibly empty, even when the
manifest derivative has no children. -/
theorem derivative_resources_amended (env : Env) (m : Manifest)
    (h0 : env.getManifest 0 = .ok m) (hp : m.status ≠ "pending")
    (hi : m.status ≠ "inprogress") (hf : m.status ≠ "failed")
    (hd : m.derivatives ≠ []) :
    getMetadata env = .ok (successPath env m)
    ∧ (successPath env m).derivatives = m.derivatives.map derivativeOut
    ∧ (∀ d ∈ m.derivatives, (derivativeOut d).resources = d.children.map resourceOut)
    ∧ (∀ d ∈ m.derivatives, d.children = [] → (derivativeOut d).resources = []) := by
  have hlen : ¬(m.derivatives.length = 0) := fun hh => hd (List.length_eq_zero.mp hh)
  refine ⟨getMetadata_ok env m h0 hp hi hf, ?_, fun d _ => rfl, fun d _ hc => ?_⟩
  · rw [successPath, if_neg hlen]
  · show d.children.map resourceOut = []
    rw [hc]
    rfl

/-- Witness for the amended C9 at the nested environment. -/
theorem derivative_resources_amended_witness :
    (successPath envNested manifestNested).derivatives =
      manifestNested.derivatives.map derivativeOut :=
  (derivative_resources_amended envNested manifestNested rfl (by decide) (by decide)
    (by decide) (List.cons_ne_nil derivNested [])).2.1
